import Mathlib

/-!
Verification of the frame-sequence resolution and intensity-normalization
pipeline of `cine_to_dicom.py` (DICOM cine → animated GIF).

The embedding mirrors the source:
* numpy arrays become `NDArr α` (a shape together with flattened data);
* `np.percentile` with the default linear interpolation becomes `percentile`;
* `_to_uint8` becomes `to_uint8`;
* `_read_multiframe`, `_read_series`, `make_gif` become `read_multiframe`,
  `read_series`, `make_gif`, with the VOI-LUT collaborator abstracted as a
  fallible function and the directory listing abstracted as a list of
  `FileEntry` (name plus parse outcome).
Machine floats are modelled by exact rationals; `astype(np.uint8)` on the
(always in-range, non-negative) values becomes an integer floor.
-/

set_option maxRecDepth 40000

namespace CineToGif

/-- A numpy-style n-dimensional array: a shape and row-major flattened data. -/
structure NDArr (α : Type) where
  shape : List ℕ
  data : List α
deriving DecidableEq, Repr

def NDArr.ndim {α : Type} (a : NDArr α) : ℕ := a.shape.length

/-- `np.squeeze`: drop all axes of extent 1 (data unchanged). -/
def NDArr.squeeze {α : Type} (a : NDArr α) : NDArr α :=
  ⟨a.shape.filter (fun d => d ≠ 1), a.data⟩

/-- `arr[..., :1]`: keep only the first index of the last axis.  The number of
axes is unchanged; the last axis shrinks to extent `min w 1`. -/
def NDArr.sliceLast1 {α : Type} [Inhabited α] (a : NDArr α) : NDArr α :=
  match a.shape.getLast? with
  | none => a
  | some w =>
    ⟨a.shape.dropLast ++ [min w 1],
     (List.range (a.data.length / max w 1)).map (fun i => a.data.getD (i * w) default)⟩

/-- Iterating `for f in arr`: split along the first axis. -/
def NDArr.splitFirst {α : Type} (a : NDArr α) : List (NDArr α) :=
  match a.shape with
  | [] => []
  | n :: s => (List.range n).map (fun i => ⟨s, (a.data.drop (i * s.prod)).take s.prod⟩)

/-- `np.stack(frames, axis=0)`: requires a non-empty list of equal-shaped
arrays, otherwise numpy raises. -/
def stack {α : Type} (fs : List (NDArr α)) : Except String (NDArr α) :=
  match fs with
  | [] => .error "need at least one array to stack"
  | f :: rest =>
    if rest.all (fun g => g.shape = f.shape) then
      .ok ⟨fs.length :: f.shape, (fs.map (fun g => g.data)).flatten⟩
    else .error "all input arrays must have the same shape"

/-- Stable insertion of `x` into `l` under the boolean order `le`. -/
def insortOne {α : Type} (le : α → α → Bool) (x : α) : List α → List α
  | [] => [x]
  | y :: l => if le x y then x :: y :: l else y :: insortOne le x l

/-- Stable insertion sort (Python `list.sort` is stable). -/
def insort {α : Type} (le : α → α → Bool) : List α → List α
  | [] => []
  | x :: l => insortOne le x (insort le l)

def qle (x y : ℚ) : Bool := decide (x ≤ y)

/-- `np.percentile(xs, p)` with the default linear interpolation: the virtual
index is `p/100 * (n-1)`; the result interpolates between the neighbouring
order statistics. -/
def percentile (xs : List ℚ) (p : ℚ) : ℚ :=
  let s := insort qle xs
  let n := s.length
  let pos := p / 100 * ((n : ℚ) - 1)
  let i := (Int.floor pos).toNat
  let g := pos - (i : ℚ)
  let a := s.getD i 0
  let b := s.getD (min (i + 1) (n - 1)) 0
  a + g * (b - a)

/-- `lo, hi = np.percentile(img, (1, 99))` followed by the degenerate-range
guard `if hi <= lo: hi = lo + 1.0`. -/
def loHi (xs : List ℚ) : ℚ × ℚ :=
  let lo := percentile xs 1
  let hi := percentile xs 99
  (lo, if hi ≤ lo then lo + 1 else hi)

/-- `np.clip(v, 0, 1)`. -/
def clip01 (x : ℚ) : ℚ := max 0 (min x 1)

/-- One sample of `_to_uint8`: linear map `lo → 0`, `hi → 1`, clip, optional
inversion, then `(v*255 + 0.5).astype(np.uint8)` (truncation = floor, since
the value lies in `[0.5, 255.5]`). -/
def toUint8Pix (lo hi : ℚ) (invert : Bool) (x : ℚ) : ℤ :=
  let v := clip01 ((x - lo) / (hi - lo))
  let w := if invert then 1 - v else v
  Int.floor (w * 255 + 1 / 2)

/-- `_to_uint8(img16, invert)`: percentile-based normalization to uint8 with
optional inversion. -/
def to_uint8 (a : NDArr ℚ) (invert : Bool) : NDArr ℤ :=
  let lh := loHi a.data
  ⟨a.shape, a.data.map (toUint8Pix lh.1 lh.2 invert)⟩

/-- The metadata and pixel payload of one parsed DICOM dataset, restricted to
the tags the pipeline reads.  Absent string tags are `none`; `sopClassUID`
uses `""` for absent-or-empty (the code tests it for truthiness only). -/
structure Dataset where
  sopClassUID : String
  numberOfFrames : Option ℤ
  photometric : String
  frameTime : Option ℚ
  cineRate : Option ℚ
  instanceNumber : Option String
  acquisitionTime : Option String
  contentTime : Option String
  pixel : NDArr ℚ
deriving DecidableEq, Repr

def dsDefault : Dataset :=
  ⟨"", none, "", none, none, none, none, none, ⟨[], []⟩⟩

/-- A directory entry: its file name and the outcome of `pydicom.dcmread`
(`none` when parsing raises). -/
structure FileEntry where
  name : String
  parse : Option Dataset
deriving DecidableEq, Repr

/-- The VOI-LUT collaborator `apply_voi_lut`: may fail for any reason. -/
def VOI : Type := NDArr ℚ → Dataset → Except String (NDArr ℚ)

/-- The `try: arr = apply_voi_lut(arr, ds) except Exception: pass` pattern:
on failure the array held before the call is kept. -/
def applyVoi (voi : VOI) (a : NDArr ℚ) (ds : Dataset) : NDArr ℚ :=
  match voi a ds with
  | .ok b => b
  | .error _ => a

/-- Python truthiness test `x and x > 0` on an optional numeric tag. -/
def posQ : Option ℚ → Bool
  | some t => decide (0 < t)
  | none => false

/-- `str(ds.get("PhotometricInterpretation", "")).upper() == "MONOCHROME1"`. -/
def invertOf (ds : Dataset) : Bool := ds.photometric.toUpper == "MONOCHROME1"

/-- The composite sort key of `_read_series.sort_key`:
`inst = getattr(ds, "InstanceNumber", 0)`;
`t = getattr(ds, "AcquisitionTime", None) or getattr(ds, "ContentTime", "")`;
key `(int(inst) if str(inst).isdigit() else 0, str(t))`.  Note the Python
`or`: a present-but-empty acquisition time is falsy and falls through to the
content time. -/
def sortKey (ds : Dataset) : ℤ × String :=
  let instS := ds.instanceNumber.getD "0"
  let primary : ℤ := match instS.toNat? with
    | some n => (n : ℤ)
    | none => 0
  let t := match ds.acquisitionTime with
    | some s => if s ≠ "" then s else ds.contentTime.getD ""
    | none => ds.contentTime.getD ""
  (primary, t)

/-- Lexicographic order on sort keys, as Python compares tuples. -/
def keyLE (a b : ℤ × String) : Prop := a.1 < b.1 ∨ (a.1 = b.1 ∧ a.2 ≤ b.2)

instance (a b : ℤ × String) : Decidable (keyLE a b) := by
  unfold keyLE; infer_instance

def dsLe (a b : Dataset) : Bool := decide (keyLE (sortKey a) (sortKey b))

/-- `dsets.sort(key=sort_key)` (stable). -/
def sortCandidates (l : List Dataset) : List Dataset := insort dsLe l

/-- `glob.glob(os.path.join(folder, "*"))`: every non-hidden entry. -/
def globMatchAll (n : String) : Bool := !n.startsWith "."

/-- `glob.glob(os.path.join(folder, "*.dcm"))`: non-hidden entries whose name
ends in ".dcm". -/
def globMatchDcm (n : String) : Bool := !n.startsWith "." && n.endsWith ".dcm"

/-- Candidate collection of `_read_series`: the two glob patterns are
concatenated, then each file is parsed metadata-only and kept when it parses
and has a truthy `SOPClassUID`. -/
def seriesCandidates (entries : List FileEntry) : List Dataset :=
  let files := entries.filter (fun e => globMatchDcm e.name)
    ++ entries.filter (fun e => globMatchAll e.name)
  files.filterMap (fun e =>
    match e.parse with
    | some ds => if ds.sopClassUID ≠ "" then some ds else none
    | none => none)

/-- The shape-degrade branch of `_read_series`:
`if arr.ndim != 2: arr = np.squeeze(arr)[..., :1]`. -/
def seriesDegrade (a : NDArr ℚ) : NDArr ℚ :=
  if a.ndim ≠ 2 then a.squeeze.sliceLast1 else a

/-- The timing scan of `_read_series`: walk the sorted candidates, stop at the
first one with a positive `FrameTime` (→ `ft/1000`) or, failing that on the
same candidate, a positive `CineRate` (→ `1/cr`). -/
def seriesDtScan : List Dataset → Option ℚ
  | [] => none
  | ds :: rest =>
    if posQ ds.frameTime then some (ds.frameTime.getD 0 / 1000)
    else if posQ ds.cineRate then some (1 / ds.cineRate.getD 0)
    else seriesDtScan rest

/-- The normalized frame of one sorted series candidate: the shape-degrade
branch, the best-effort VOI step, then `_to_uint8`. -/
def seriesFrame (voi : VOI) (invert : Bool) (ds : Dataset) : NDArr ℤ :=
  let arr := seriesDegrade ds.pixel
  let arr := applyVoi voi arr ds
  to_uint8 arr invert

/-- The sorted candidate list of `_read_series`. -/
def seriesSorted (entries : List FileEntry) : List Dataset :=
  sortCandidates (seriesCandidates entries)

/-- The polarity flag of `_read_series`, taken from the first sorted
candidate only. -/
def seriesInvert (entries : List FileEntry) : Bool :=
  match (seriesSorted entries).head? with
  | some d => invertOf d
  | none => false

/-- `_read_series(folder, fallback_fps)`. -/
def read_series (voi : VOI) (entries : List FileEntry) (fallback_fps : ℚ) :
    Except String (NDArr ℤ × ℚ) :=
  if seriesCandidates entries = [] then .error "No DICOM files found in folder." else
  let frames := (seriesSorted entries).map (seriesFrame voi (seriesInvert entries))
  let dt := (seriesDtScan (seriesSorted entries)).getD (1 / fallback_fps)
  (stack frames).map (fun s => (s, dt))

/-- The timing chain of `_read_multiframe` (source lines 41-48): positive
`FrameTime` wins, then positive `CineRate`, then the constant 25 fps. -/
def mfDt (ds : Dataset) : ℚ :=
  if posQ ds.frameTime then ds.frameTime.getD 0 / 1000
  else if posQ ds.cineRate then 1 / ds.cineRate.getD 0
  else 1 / 25

/-- `_read_multiframe(ds)`. -/
def read_multiframe (voi : VOI) (ds : Dataset) : Except String (NDArr ℤ × ℚ) :=
  let arr := ds.pixel
  let arr := if arr.ndim = 2 then ⟨1 :: arr.shape, arr.data⟩ else arr
  let arr := applyVoi voi arr ds
  let invert := invertOf ds
  let frames := arr.splitFirst.map (fun f => to_uint8 f invert)
  (stack frames).map (fun s => (s, mfDt ds))

/-- The input of `make_gif`: a directory (with its listing), or a file (with
its parsed dataset and, for the single-frame fallback, the listing of its
containing directory). -/
inductive GifInput where
  | dir (entries : List FileEntry)
  | file (ds : Dataset) (dirEntries : List FileEntry)

/-- The arguments `make_gif` hands to `imageio.mimsave`: the stacked frames,
the per-frame duration in seconds, and the loop count. -/
structure EncoderCall where
  frames : NDArr ℤ
  duration : ℚ
  loop : ℕ
deriving DecidableEq, Repr

/-- `fps or 25.0`: `None` and `0` are falsy and yield 25; any other value
(including a negative one) passes through. -/
def fallbackFps (fps : Option ℚ) : ℚ :=
  match fps with
  | some f => if f ≠ 0 then f else 25
  | none => 25

/-- `hasattr(ds, "NumberOfFrames") and int(ds.NumberOfFrames) > 1`. -/
def isMultiframe (ds : Dataset) : Bool :=
  match ds.numberOfFrames with
  | some n => decide (1 < n)
  | none => false

/-- The loader dispatch of `make_gif`: a directory is read as a series; a
file declaring more than one frame is read as an embedded multiframe;
otherwise the file's containing directory is read as a series. -/
def gifLoad (voi : VOI) (input : GifInput) (fps : Option ℚ) :
    Except String (NDArr ℤ × ℚ) :=
  match input with
  | .dir entries => read_series voi entries (fallbackFps fps)
  | .file ds dirEntries =>
    if isMultiframe ds then read_multiframe voi ds
    else read_series voi dirEntries (fallbackFps fps)

/-- `if fps is not None and fps > 0: dt = 1.0/float(fps)` (source lines
121-122): a positive explicit override replaces the loader's duration. -/
def finalDt (fps : Option ℚ) (dt : ℚ) : ℚ :=
  match fps with
  | some f => if 0 < f then 1 / f else dt
  | none => dt

/-- `make_gif(input_path, output_gif, fps)` up to the encoder call: an
`Except.error` means the exception propagates and `imageio.mimsave` is never
invoked. -/
def make_gif (voi : VOI) (input : GifInput) (fps : Option ℚ) :
    Except String EncoderCall :=
  match gifLoad voi input fps with
  | .error e => .error e
  | .ok (frames, dt) => .ok ⟨frames, finalDt fps dt, 0⟩

/-- A VOI collaborator that always succeeds as the identity (no rescaling
table present). -/
def voiOk : VOI := fun a _ => .ok a

/-- A VOI collaborator that always raises. -/
def voiFail : VOI := fun _ _ => .error "VOI LUT failed"

/-- Replace every failure of a VOI collaborator by the no-op success.  Claim
C9 amounts to: a loader cannot distinguish `voi` from `voiPatch voi`. -/
def voiPatch (voi : VOI) : VOI := fun a ds =>
  match voi a ds with
  | .ok b => .ok b
  | .error _ => .ok a

/-- Multiply every sample of a frame by a constant (elementwise `c * img`). -/
def scaleArr (c : ℚ) (a : NDArr ℚ) : NDArr ℚ :=
  ⟨a.shape, a.data.map (fun x => c * x)⟩

/-- Modelled from the spec: the composite sort key exactly as claim C4 words
it — primary as in the code, secondary "acquisition time if present, else
content time, else empty string" (no truthiness test on a present-but-empty
acquisition time).  Used only to compare the claim's key with the code's
`sortKey`. -/
def specSortKey (ds : Dataset) : ℤ × String :=
  let instS := ds.instanceNumber.getD "0"
  let primary : ℤ := match instS.toNat? with
    | some n => (n : ℤ)
    | none => 0
  let t := match ds.acquisitionTime with
    | some s => s
    | none => ds.contentTime.getD ""
  (primary, t)

/-- The frame that defeats claim C8: 100 samples of value 5 and one of
value 6.  Its 1st and 99th percentiles coincide at 5, so the `hi <= lo`
guard fires. -/
def c8Frame : NDArr ℚ := ⟨[1, 101], List.replicate 100 5 ++ [6]⟩

/-- A minimal metadata-only dataset for sort-order experiments. -/
def mkDs (inst acq ct : Option String) : Dataset :=
  ⟨"1.2", none, "", none, none, inst, acq, ct, ⟨[1, 1], [0]⟩⟩

/-- Candidate X of the C4 counterexample: a present-but-empty acquisition
time and content time "2". -/
def c4X : Dataset := mkDs (some "1") (some "") (some "2")

/-- Candidate Y of the C4 counterexample: acquisition time "1". -/
def c4Y : Dataset := mkDs (some "1") (some "1") none

/-- The C4 amended-claim concrete candidates with ordering numbers 3, 1, 2. -/
def c4d1 : Dataset := mkDs (some "1") none none
def c4d2 : Dataset := mkDs (some "2") none none
def c4d3 : Dataset := mkDs (some "3") none none

/-- Two candidates with identical ordering number 7, tie-broken by time. -/
def c4t1 : Dataset := mkDs (some "7") (some "1") none
def c4t2 : Dataset := mkDs (some "7") (some "2") none

/-- A list consisting of consecutive identical pairs: `[x, x, y, y, ...]`.
This is how "every duplicated candidate ends up adjacent to its copy" is
stated. -/
inductive Paired {α : Type} : List α → Prop
  | nil : Paired []
  | cons (x : α) (l : List α) : Paired l → Paired (x :: x :: l)

/-- The dataset a valid candidate entry parses to. -/
def entryDs (e : FileEntry) : Dataset := e.parse.getD dsDefault

/-- Candidate A of the C3 counterexample: a valid 1×2 image, no times. -/
def c3dsA : Dataset := ⟨"1.2", none, "", none, none, some "1", none, none, ⟨[1, 2], [0, 1]⟩⟩

/-- Candidate B of the C3 counterexample: same sort key as A, different image. -/
def c3dsB : Dataset := ⟨"1.2", none, "", none, none, some "1", none, none, ⟨[1, 2], [1, 0]⟩⟩

/-- The frame stack `_read_series` produces for the C3 counterexample
directory: both files are collected by both glob patterns, so each of the
two frames appears twice, interleaved as A B A B. -/
def c3Out : NDArr ℤ := ⟨[4, 1, 2], [0, 255, 255, 0, 0, 255, 255, 0]⟩

/-- Two C3-witness candidates with distinct ordering numbers. -/
def c3wA : Dataset := ⟨"1.2", none, "", none, none, some "1", none, none, ⟨[1, 2], [0, 1]⟩⟩
def c3wB : Dataset := ⟨"1.2", none, "", none, none, some "2", none, none, ⟨[1, 2], [1, 0]⟩⟩

/-- A two-frame embedded cine declaring both `FrameTime=40` and
`CineRate=15`, for the timing-priority witnesses. -/
def c1Ds : Dataset := ⟨"1.2", some 2, "", some 40, some 15, none, none, none, ⟨[2, 1, 2], [0, 1, 1, 0]⟩⟩

/-- The frame stack `_read_multiframe` produces for `c1Ds`. -/
def c1Out : NDArr ℤ := ⟨[2, 1, 2], [0, 255, 255, 0]⟩

/-- A multiframe dataset with no timing tags at all, for claim C10. -/
def c10Ds : Dataset := ⟨"1.2", some 5, "", none, none, none, none, none, ⟨[1, 1, 1], [7]⟩⟩

/-- A single-frame series candidate with no timing tags, for claim C10. -/
def c10wDs : Dataset := ⟨"1.2", none, "", none, none, some "1", none, none, ⟨[1, 2], [0, 1]⟩⟩

/-- A well-formed 2-D series candidate for the C6 series. -/
def c6GoodDs : Dataset := ⟨"1.2", none, "", none, none, some "1", none, none, ⟨[1, 2], [0, 1]⟩⟩

/-- A series candidate whose pixel data is 3-dimensional (an embedded
multiframe that slipped into the series directory), for claim C6. -/
def c6BadDs : Dataset := ⟨"1.2", none, "", none, none, some "2", none, none, ⟨[2, 2, 2], [1, 2, 3, 4, 5, 6, 7, 8]⟩⟩

/-! ### Helper lemmas: the intensity normalizer -/

theorem loHi_fst_lt_snd (xs : List ℚ) : (loHi xs).1 < (loHi xs).2 := by
  show percentile xs 1 <
    (if percentile xs 99 ≤ percentile xs 1 then percentile xs 1 + 1 else percentile xs 99)
  split_ifs with h
  · linarith
  · exact lt_of_not_le h

theorem clip01_nonneg (x : ℚ) : 0 ≤ clip01 x := le_max_left 0 _

theorem clip01_le_one (x : ℚ) : clip01 x ≤ 1 :=
  max_le zero_le_one (min_le_right x 1)

theorem clip01_mono {x y : ℚ} (h : x ≤ y) : clip01 x ≤ clip01 y :=
  max_le_max le_rfl (min_le_min h le_rfl)

theorem toUint8Pix_nonneg (lo hi : ℚ) (invert : Bool) (x : ℚ) :
    0 ≤ toUint8Pix lo hi invert x := by
  have h0 := clip01_nonneg ((x - lo) / (hi - lo))
  have h1 := clip01_le_one ((x - lo) / (hi - lo))
  show (0 : ℤ) ≤ ⌊(if invert then 1 - clip01 ((x - lo) / (hi - lo))
      else clip01 ((x - lo) / (hi - lo))) * 255 + 1 / 2⌋
  refine Int.le_floor.mpr ?_
  cases invert <;> simp only [Bool.false_eq_true, ite_false, ite_true] <;>
    push_cast <;> nlinarith

theorem toUint8Pix_le_255 (lo hi : ℚ) (invert : Bool) (x : ℚ) :
    toUint8Pix lo hi invert x ≤ 255 := by
  have h0 := clip01_nonneg ((x - lo) / (hi - lo))
  have h1 := clip01_le_one ((x - lo) / (hi - lo))
  show (⌊(if invert then 1 - clip01 ((x - lo) / (hi - lo))
      else clip01 ((x - lo) / (hi - lo))) * 255 + 1 / 2⌋ : ℤ) ≤ 255
  have h : (⌊(if invert then 1 - clip01 ((x - lo) / (hi - lo))
      else clip01 ((x - lo) / (hi - lo))) * 255 + 1 / 2⌋ : ℤ) < 256 := by
    refine Int.floor_lt.mpr ?_
    cases invert <;> simp only [Bool.false_eq_true, ite_false, ite_true] <;>
      push_cast <;> nlinarith
  omega

theorem toUint8Pix_mono {lo hi : ℚ} (hlh : lo < hi) {x y : ℚ} (hxy : x ≤ y) :
    toUint8Pix lo hi false x ≤ toUint8Pix lo hi false y ∧
    toUint8Pix lo hi true y ≤ toUint8Pix lo hi true x := by
  have hd : (0 : ℚ) < hi - lo := by linarith
  have hv : (x - lo) / (hi - lo) ≤ (y - lo) / (hi - lo) :=
    (div_le_div_iff_of_pos_right hd).mpr (by linarith)
  have hc := clip01_mono hv
  constructor
  · show (⌊(if false then 1 - clip01 ((x - lo) / (hi - lo))
        else clip01 ((x - lo) / (hi - lo))) * 255 + 1 / 2⌋ : ℤ) ≤
      ⌊(if false then 1 - clip01 ((y - lo) / (hi - lo))
        else clip01 ((y - lo) / (hi - lo))) * 255 + 1 / 2⌋
    simp only [Bool.false_eq_true, ite_false]
    exact Int.floor_le_floor (by nlinarith)
  · show (⌊(if true then 1 - clip01 ((y - lo) / (hi - lo))
        else clip01 ((y - lo) / (hi - lo))) * 255 + 1 / 2⌋ : ℤ) ≤
      ⌊(if true then 1 - clip01 ((x - lo) / (hi - lo))
        else clip01 ((x - lo) / (hi - lo))) * 255 + 1 / 2⌋
    simp only [ite_true]
    exact Int.floor_le_floor (by nlinarith)

/-! ### Helper lemmas: percentile scale invariance -/

theorem getD_map_mul (c : ℚ) : ∀ (l : List ℚ) (i : ℕ),
    (l.map (fun x => c * x)).getD i 0 = c * l.getD i 0
  | [], i => by simp
  | x :: l, 0 => by simp
  | x :: l, i + 1 => by
    simpa using getD_map_mul c l i

theorem qle_mul_left {c : ℚ} (hc : 0 < c) (x y : ℚ) :
    qle (c * x) (c * y) = qle x y := by
  simp [qle, mul_le_mul_left hc]

theorem insortOne_map_mul {c : ℚ} (hc : 0 < c) (x : ℚ) : ∀ l : List ℚ,
    insortOne qle (c * x) (l.map (fun z => c * z)) =
      (insortOne qle x l).map (fun z => c * z)
  | [] => rfl
  | y :: l => by
    simp only [List.map_cons, insortOne, qle_mul_left hc]
    split_ifs with h
    · simp
    · simp [insortOne_map_mul hc x l]

theorem insort_map_mul {c : ℚ} (hc : 0 < c) : ∀ l : List ℚ,
    insort qle (l.map (fun z => c * z)) = (insort qle l).map (fun z => c * z)
  | [] => rfl
  | x :: l => by
    simp only [List.map_cons, insort, insort_map_mul hc l, insortOne_map_mul hc x]

theorem percentile_scale {c : ℚ} (hc : 0 < c) (xs : List ℚ) (p : ℚ) :
    percentile (xs.map (fun z => c * z)) p = c * percentile xs p := by
  unfold percentile
  rw [insort_map_mul hc xs]
  simp only [List.length_map, getD_map_mul]
  ring

theorem loHi_scale {c : ℚ} (hc : 0 < c) {xs : List ℚ}
    (hg : percentile xs 1 < percentile xs 99) :
    loHi (xs.map (fun z => c * z)) = (c * (loHi xs).1, c * (loHi xs).2) := by
  unfold loHi
  simp only [percentile_scale hc]
  have h1 : ¬ percentile xs 99 ≤ percentile xs 1 := not_le.mpr hg
  have h2 : ¬ c * percentile xs 99 ≤ c * percentile xs 1 :=
    not_le.mpr ((mul_lt_mul_left hc).mpr hg)
  simp [h1, h2]

theorem toUint8Pix_scale {c : ℚ} (hc : 0 < c) (lo hi : ℚ) (invert : Bool) (x : ℚ) :
    toUint8Pix (c * lo) (c * hi) invert (c * x) = toUint8Pix lo hi invert x := by
  unfold toUint8Pix
  have : (c * x - c * lo) / (c * hi - c * lo) = (x - lo) / (hi - lo) := by
    rw [← mul_sub, ← mul_sub, mul_div_mul_left _ _ (ne_of_gt hc)]
  rw [this]

theorem to_uint8_eq (a : NDArr ℚ) (invert : Bool) :
    to_uint8 a invert =
      ⟨a.shape, a.data.map (toUint8Pix (loHi a.data).1 (loHi a.data).2 invert)⟩ := rfl

theorem getD_map_lt {α β : Type} (f : α → β) (d : α) (d' : β) :
    ∀ (l : List α) (k : ℕ), k < l.length → (l.map f).getD k d' = f (l.getD k d)
  | [], k, h => by simp at h
  | x :: t, 0, _ => by simp
  | x :: t, k + 1, h => by
    simpa using getD_map_lt f d d' t k (by simpa using h)

/-! ### Claims about the intensity normalizer -/

/-- Claim C2: for every non-empty raw frame and either invert flag,
normalization is total, preserves the grid's shape, keeps every output sample
in `[0, 255]`, never divides by zero (the guarded `hi` stays strictly above
`lo`), and maps an all-constant frame to a defined constant grid. -/
theorem spec_c2 (a : NDArr ℚ) (invert : Bool) (hne : a.data ≠ []) :
    (to_uint8 a invert).shape = a.shape ∧
    (to_uint8 a invert).data.length = a.data.length ∧
    (loHi a.data).1 < (loHi a.data).2 ∧
    (∀ x ∈ (to_uint8 a invert).data, 0 ≤ x ∧ x ≤ 255) ∧
    ((∀ x ∈ a.data, ∀ y ∈ a.data, x = y) →
      ∀ p ∈ (to_uint8 a invert).data, ∀ q ∈ (to_uint8 a invert).data, p = q) := by
  simp only [to_uint8_eq]
  refine ⟨trivial, List.length_map _ _, loHi_fst_lt_snd _, ?_, ?_⟩
  · intro x hx
    rcases List.mem_map.mp hx with ⟨v, _, rfl⟩
    exact ⟨toUint8Pix_nonneg _ _ _ _, toUint8Pix_le_255 _ _ _ _⟩
  · intro hconst p hp q hq
    rcases List.mem_map.mp hp with ⟨v, hv, rfl⟩
    rcases List.mem_map.mp hq with ⟨w, hw, rfl⟩
    rw [hconst v hv w hw]

/-- Claim C2 witness at a concrete 2×2 frame. -/
theorem spec_c2_witness :
    (to_uint8 ⟨[2, 2], [1, 2, 3, 4]⟩ true).shape = [2, 2] ∧
    (∀ x ∈ (to_uint8 (⟨[2, 2], [1, 2, 3, 4]⟩ : NDArr ℚ) true).data, 0 ≤ x ∧ x ≤ 255) :=
  ⟨(spec_c2 ⟨[2, 2], [1, 2, 3, 4]⟩ true (by decide)).1,
   (spec_c2 ⟨[2, 2], [1, 2, 3, 4]⟩ true (by decide)).2.2.2.1⟩

/-- Claim C7: normalization is order-preserving — for two sample positions
with strictly ordered input values, the outputs are ordered the same way
without inversion and the opposite way with inversion. -/
theorem spec_c7 (a : NDArr ℚ) (i j : ℕ) (hi : i < a.data.length)
    (hj : j < a.data.length) (hlt : a.data.getD i 0 < a.data.getD j 0) :
    (to_uint8 a false).data.getD i 0 ≤ (to_uint8 a false).data.getD j 0 ∧
    (to_uint8 a true).data.getD j 0 ≤ (to_uint8 a true).data.getD i 0 := by
  have hmono := toUint8Pix_mono (loHi_fst_lt_snd a.data) (le_of_lt hlt)
  constructor
  · rw [to_uint8_eq]
    show ((a.data.map _).getD i 0 : ℤ) ≤ (a.data.map _).getD j 0
    rw [getD_map_lt _ 0 0 _ i hi, getD_map_lt _ 0 0 _ j hj]
    exact hmono.1
  · rw [to_uint8_eq]
    show ((a.data.map _).getD j 0 : ℤ) ≤ (a.data.map _).getD i 0
    rw [getD_map_lt _ 0 0 _ i hi, getD_map_lt _ 0 0 _ j hj]
    exact hmono.2

/-- Claim C7 witness at a concrete frame with samples 0 < 10. -/
theorem spec_c7_witness :
    (to_uint8 ⟨[1, 2], [0, 10]⟩ false).data.getD 0 0 ≤
      (to_uint8 (⟨[1, 2], [0, 10]⟩ : NDArr ℚ) false).data.getD 1 0 ∧
    (to_uint8 ⟨[1, 2], [0, 10]⟩ true).data.getD 1 0 ≤
      (to_uint8 (⟨[1, 2], [0, 10]⟩ : NDArr ℚ) true).data.getD 0 0 :=
  spec_c7 ⟨[1, 2], [0, 10]⟩ 0 1 (by decide) (by decide) (by decide)

/-- Claim C8 counterexample: scaling the samples of `c8Frame` by the positive
constant 1/2 changes the normalized output — the last sample maps to 255
unscaled but to 128 scaled, a difference far beyond rounding. -/
theorem spec_c8_counterexample :
    (0 : ℚ) < 1 / 2 ∧
    to_uint8 (scaleArr (1 / 2) c8Frame) false ≠ to_uint8 c8Frame false ∧
    (to_uint8 c8Frame false).data.getD 100 0 = 255 ∧
    (to_uint8 (scaleArr (1 / 2) c8Frame) false).data.getD 100 0 = 128 := by
  with_unfolding_all decide

/-- Claim C8 (amended): scale invariance holds whenever the frame's 1st and
99th percentiles differ, i.e. whenever the degenerate-range guard does not
fire; when the guard fires the outputs can differ beyond rounding
(see the counterexample). -/
theorem spec_c8 (a : NDArr ℚ) (c : ℚ) (invert : Bool) (hc : 0 < c)
    (hg : percentile a.data 1 < percentile a.data 99) :
    to_uint8 (scaleArr c a) invert = to_uint8 a invert := by
  have hdata : (scaleArr c a).data = a.data.map (fun z => c * z) := rfl
  have hlohi : loHi (a.data.map (fun z => c * z)) = (c * (loHi a.data).1, c * (loHi a.data).2) :=
    loHi_scale hc hg
  rw [to_uint8_eq, to_uint8_eq]
  simp only [NDArr.mk.injEq]
  refine ⟨rfl, ?_⟩
  rw [hdata, hlohi, List.map_map]
  congr 1
  funext z
  exact toUint8Pix_scale hc _ _ invert z

/-- Claim C8 witness: a non-degenerate concrete frame scaled by 2. -/
theorem spec_c8_witness :
    to_uint8 (scaleArr 2 ⟨[1, 2], [0, 10]⟩) false =
      to_uint8 (⟨[1, 2], [0, 10]⟩ : NDArr ℚ) false :=
  spec_c8 ⟨[1, 2], [0, 10]⟩ 2 false (by norm_num) (by with_unfolding_all decide)

/-! ### Helper lemmas: the stable insertion sort -/

theorem insortOne_perm {α : Type} (le : α → α → Bool) (x : α) :
    ∀ l : List α, List.Perm (insortOne le x l) (x :: l)
  | [] => .refl _
  | y :: l => by
    unfold insortOne
    split_ifs with h
    · exact .refl _
    · exact ((insortOne_perm le x l).cons y).trans (List.Perm.swap x y l)

theorem insort_perm {α : Type} (le : α → α → Bool) : ∀ l : List α, List.Perm (insort le l) l
  | [] => .refl _
  | x :: l => (insortOne_perm le x (insort le l)).trans ((insort_perm le l).cons x)

theorem insortOne_pairwise {α : Type} (le : α → α → Bool)
    (htot : ∀ a b, le a b = true ∨ le b a = true)
    (htr : ∀ a b c, le a b = true → le b c = true → le a c = true) (x : α) :
    ∀ l : List α, l.Pairwise (fun a b => le a b = true) →
      (insortOne le x l).Pairwise (fun a b => le a b = true)
  | [], _ => List.pairwise_singleton _ x
  | y :: t, hp => by
    rcases List.pairwise_cons.mp hp with ⟨hy, ht⟩
    unfold insortOne
    split_ifs with h
    · refine List.pairwise_cons.mpr ⟨?_, hp⟩
      intro z hz
      rcases List.mem_cons.mp hz with rfl | hz'
      · exact h
      · exact htr x y z h (hy z hz')
    · refine List.pairwise_cons.mpr ⟨?_, insortOne_pairwise le htot htr x t ht⟩
      intro z hz
      have hz' : z ∈ x :: t := (insortOne_perm le x t).mem_iff.mp hz
      rcases List.mem_cons.mp hz' with rfl | hz''
      · exact (htot z y).resolve_left h
      · exact hy z hz''

theorem insort_pairwise {α : Type} (le : α → α → Bool)
    (htot : ∀ a b, le a b = true ∨ le b a = true)
    (htr : ∀ a b c, le a b = true → le b c = true → le a c = true) :
    ∀ l : List α, (insort le l).Pairwise (fun a b => le a b = true)
  | [] => .nil
  | x :: l => insortOne_pairwise le htot htr x _ (insort_pairwise le htot htr l)

/-- A sorted list in which order-equivalent elements are equal and every
element occurs exactly twice consists of adjacent identical pairs. -/
theorem paired_of_sorted {α : Type} [DecidableEq α] (le : α → α → Bool) :
    ∀ l : List α, l.Pairwise (fun a b => le a b = true) →
      (∀ a ∈ l, ∀ b ∈ l, le a b = true → le b a = true → a = b) →
      (∀ x ∈ l, l.count x = 2) → Paired l
  | [], _, _, _ => .nil
  | [a], _, _, hcnt => by
    have h := hcnt a (by simp)
    simp at h
  | a :: b :: t, hp, hdet, hcnt => by
    rcases List.pairwise_cons.mp hp with ⟨ha, hp'⟩
    rcases List.pairwise_cons.mp hp' with ⟨hb, ht⟩
    have hmem : a ∈ b :: t := by
      by_contra hno
      have h0 : (b :: t).count a = 0 := List.count_eq_zero.mpr hno
      have h2 := hcnt a (by simp)
      simp [List.count_cons, h0] at h2
    have hba : b = a := by
      rcases List.mem_cons.mp hmem with h | h
      · exact h.symm
      · exact hdet b (by simp) a (by simp)
          (hb a h) (ha b (by simp))
    subst hba
    have hcnt2 := hcnt b (by simp)
    have hbt : b ∉ t := by
      by_contra hmem2
      have : 1 ≤ t.count b := List.count_pos_iff.mpr hmem2
      simp [List.count_cons] at hcnt2
      omega
    have hct0 : t.count b = 0 := List.count_eq_zero.mpr hbt
    refine Paired.cons b t (paired_of_sorted le t ht ?_ ?_)
    · intro x hx y hy
      exact hdet x (by simp [hx]) y (by simp [hy])
    · intro x hx
      have hxb : x ≠ b := fun h => hbt (h ▸ hx)
      have h2 := hcnt x (by simp [hx])
      simpa [List.count_cons, hxb] using h2

/-! ### Helper lemmas: the composite sort key -/

theorem keyLE_total (a b : ℤ × String) : keyLE a b ∨ keyLE b a := by
  rcases lt_trichotomy a.1 b.1 with h | h | h
  · exact .inl (.inl h)
  · rcases le_total a.2 b.2 with h2 | h2
    · exact .inl (.inr ⟨h, h2⟩)
    · exact .inr (.inr ⟨h.symm, h2⟩)
  · exact .inr (.inl h)

theorem keyLE_trans {a b c : ℤ × String} (h1 : keyLE a b) (h2 : keyLE b c) :
    keyLE a c := by
  rcases h1 with h1 | ⟨e1, h1⟩ <;> rcases h2 with h2 | ⟨e2, h2⟩
  · exact .inl (h1.trans h2)
  · exact .inl (e2 ▸ h1)
  · exact .inl (e1 ▸ h2)
  · exact .inr ⟨e1.trans e2, h1.trans h2⟩

theorem keyLE_antisymm {a b : ℤ × String} (h1 : keyLE a b) (h2 : keyLE b a) :
    a = b := by
  rcases h1 with h1 | ⟨e1, h1⟩
  · rcases h2 with h2 | ⟨e2, h2⟩
    · exact absurd h2 (lt_asymm h1)
    · exact absurd h1 (e2 ▸ lt_irrefl a.1)
  · rcases h2 with h2 | ⟨e2, h2⟩
    · exact absurd h2 (e1 ▸ lt_irrefl a.1)
    · exact Prod.ext e1 (le_antisymm h1 h2)

theorem dsLe_iff (a b : Dataset) : dsLe a b = true ↔ keyLE (sortKey a) (sortKey b) := by
  simp [dsLe]

theorem dsLe_total (a b : Dataset) : dsLe a b = true ∨ dsLe b a = true := by
  rcases keyLE_total (sortKey a) (sortKey b) with h | h
  · exact .inl ((dsLe_iff a b).mpr h)
  · exact .inr ((dsLe_iff b a).mpr h)

theorem dsLe_trans (a b c : Dataset) (h1 : dsLe a b = true) (h2 : dsLe b c = true) :
    dsLe a c = true :=
  (dsLe_iff a c).mpr (keyLE_trans ((dsLe_iff a b).mp h1) ((dsLe_iff b c).mp h2))

theorem sortCandidates_perm (l : List Dataset) : List.Perm (sortCandidates l) l :=
  insort_perm dsLe l

theorem sortCandidates_pairwise (l : List Dataset) :
    (sortCandidates l).Pairwise (fun a b => keyLE (sortKey a) (sortKey b)) :=
  (insort_pairwise dsLe dsLe_total dsLe_trans l).imp (fun h => (dsLe_iff _ _).mp h)

/-! ### Claims about the series sort order -/

/-- Claim C4 counterexample: the code's sort puts Y before X (because X's
present-but-empty acquisition time is falsy and falls through to its content
time "2"), but under the claim's key (acquisition time whenever present) the
output [Y, X] is not ascending: Y's key (1, "1") does not precede X's
key (1, ""). -/
theorem spec_c4_counterexample :
    sortCandidates [c4X, c4Y] = [c4Y, c4X] ∧
    ¬ keyLE (specSortKey c4Y) (specSortKey c4X) := by
  constructor
  · with_unfolding_all rfl
  · with_unfolding_all decide

/-- Claim C4 (amended): the loader sorts candidates ascending by the
composite key (primary: the ordering number parsed as an integer when its
string form is all digits, else 0; secondary: acquisition time if present
AND non-empty, else content time, else empty string) — the output is a
permutation of the input, pairwise ascending under that key; candidates
numbered [3,1,2] come out as [1,2,3], and identical ordering numbers are
tie-broken by the time string. -/
theorem spec_c4 :
    (∀ l : List Dataset, List.Perm (sortCandidates l) l ∧
      (sortCandidates l).Pairwise (fun a b => keyLE (sortKey a) (sortKey b))) ∧
    sortCandidates [c4d3, c4d1, c4d2] = [c4d1, c4d2, c4d3] ∧
    sortCandidates [c4t2, c4t1] = [c4t1, c4t2] := by
  refine ⟨fun l => ⟨sortCandidates_perm l, sortCandidates_pairwise l⟩, ?_, ?_⟩
  · with_unfolding_all rfl
  · with_unfolding_all rfl

/-! ### Claims about the duplicate candidate collection -/

theorem filterMap_cand_eq_map :
    ∀ l : List FileEntry,
      (∀ e ∈ l, ∃ ds, e.parse = some ds ∧ ds.sopClassUID ≠ "") →
      (l.filterMap (fun e =>
        match e.parse with
        | some ds => if ds.sopClassUID ≠ "" then some ds else none
        | none => none)) = l.map entryDs
  | [], _ => rfl
  | e :: t, h => by
    obtain ⟨ds, hds, hsop⟩ := h e (by simp)
    have ht := filterMap_cand_eq_map t (fun x hx => h x (by simp [hx]))
    simp only [List.filterMap_cons, List.map_cons, hds, hsop, if_true, ht, entryDs]
    rw [if_pos hsop]
    rfl

theorem seriesCandidates_eq (entries : List FileEntry)
    (h1 : ∀ e ∈ entries, globMatchDcm e.name = true)
    (h2 : ∀ e ∈ entries, ∃ ds, e.parse = some ds ∧ ds.sopClassUID ≠ "") :
    seriesCandidates entries = entries.map entryDs ++ entries.map entryDs := by
  have hall : ∀ e ∈ entries, globMatchAll e.name = true := by
    intro e he
    have hx := h1 e he
    unfold globMatchDcm at hx
    simp only [Bool.and_eq_true] at hx
    unfold globMatchAll
    exact hx.1
  unfold seriesCandidates
  rw [List.filter_eq_self.mpr h1, List.filter_eq_self.mpr hall,
    List.filterMap_append, filterMap_cand_eq_map entries h2]

theorem exceptMap_ok {α β : Type} (f : α → β) (x : Except String α) (b : β)
    (h : x.map f = .ok b) : ∃ a, x = .ok a ∧ b = f a := by
  cases x with
  | error e => simp [Except.map] at h
  | ok a => exact ⟨a, rfl, by simpa [Except.map] using h.symm⟩

theorem stack_ok_headD {α : Type} (fs : List (NDArr α)) (s : NDArr α)
    (h : stack fs = .ok s) : s.shape.headD 0 = fs.length := by
  cases fs with
  | nil => simp [stack] at h
  | cons f rest =>
    dsimp only [stack] at h
    split_ifs at h with hsh
    cases h
    rfl

theorem read_series_eqn (voi : VOI) (entries : List FileEntry) (fb : ℚ)
    (hne : seriesCandidates entries ≠ []) :
    read_series voi entries fb =
      (stack ((seriesSorted entries).map (seriesFrame voi (seriesInvert entries)))).map
        (fun s => (s, (seriesDtScan (seriesSorted entries)).getD (1 / fb))) := by
  unfold read_series
  rw [if_neg hne]

theorem read_series_empty (voi : VOI) (entries : List FileEntry) (fb : ℚ)
    (he : seriesCandidates entries = []) :
    read_series voi entries fb = .error "No DICOM files found in folder." := by
  unfold read_series
  rw [if_pos he]

theorem read_series_ok (voi : VOI) (entries : List FileEntry) (fb : ℚ)
    (out : NDArr ℤ × ℚ) (h : read_series voi entries fb = .ok out) :
    stack ((seriesSorted entries).map (seriesFrame voi (seriesInvert entries))) = .ok out.1 ∧
    out.2 = (seriesDtScan (seriesSorted entries)).getD (1 / fb) := by
  by_cases hemp : seriesCandidates entries = []
  · rw [read_series_empty voi entries fb hemp] at h
    cases h
  · rw [read_series_eqn voi entries fb hemp] at h
    obtain ⟨a, ha, hb⟩ := exceptMap_ok _ _ _ h
    rw [hb, ha]
    exact ⟨rfl, rfl⟩

/-- Claim C3 counterexample: a directory of two valid `.dcm` files with
EQUAL sort keys.  Each file is still collected twice and the stack holds
2N = 4 frames, but the duplicate pair is NOT adjacent: the stable sort
leaves the interleaving A B A B, so frame 0 equals frame 2 while frame 1
differs. -/
theorem spec_c3_counterexample :
    read_series voiOk [⟨"a.dcm", some c3dsA⟩, ⟨"b.dcm", some c3dsB⟩] 25 =
      .ok (c3Out, 1 / 25) ∧
    c3Out.splitFirst.getD 0 ⟨[], []⟩ = c3Out.splitFirst.getD 2 ⟨[], []⟩ ∧
    c3Out.splitFirst.getD 0 ⟨[], []⟩ ≠ c3Out.splitFirst.getD 1 ⟨[], []⟩ := by
  refine ⟨by with_unfolding_all rfl, by with_unfolding_all rfl, ?_⟩
  with_unfolding_all decide

/-- Claim C3 (amended): in a directory whose entries are all valid
non-hidden `.dcm` files, every file is collected by both glob patterns, so
the loader reads each twice and the sorted candidate sequence has 2N
elements and, PROVIDED distinct files have distinct sort keys, consists of
adjacent identical pairs; when `read_series` succeeds, the stacked output
accordingly has 2N frames. -/
theorem spec_c3 (entries : List FileEntry)
    (h1 : ∀ e ∈ entries, globMatchDcm e.name = true)
    (h2 : ∀ e ∈ entries, ∃ ds, e.parse = some ds ∧ ds.sopClassUID ≠ "")
    (h3 : entries.Pairwise (fun a b => sortKey (entryDs a) ≠ sortKey (entryDs b))) :
    (seriesSorted entries).length = 2 * entries.length ∧
    Paired (seriesSorted entries) ∧
    (∀ (voi : VOI) (fb : ℚ) (out : NDArr ℤ × ℚ),
      read_series voi entries fb = .ok out →
        out.1.shape.headD 0 = 2 * entries.length) := by
  have hcand := seriesCandidates_eq entries h1 h2
  set L := entries.map entryDs with hL
  have hperm : List.Perm (seriesSorted entries) (L ++ L) := by
    rw [seriesSorted, hcand]
    exact sortCandidates_perm _
  have hlen : (seriesSorted entries).length = 2 * entries.length := by
    rw [hperm.length_eq, List.length_append, hL, List.length_map]
    omega
  have hkeys : L.Pairwise (fun x y => sortKey x ≠ sortKey y) :=
    List.pairwise_map.mpr h3
  have hnodupL : L.Nodup :=
    hkeys.imp (fun h => fun heq => h (heq ▸ rfl))
  have hkeysym : Symmetric (fun x y : Dataset => sortKey x ≠ sortKey y) :=
    fun _ _ h => fun heq => h heq.symm
  have hdet : ∀ a ∈ seriesSorted entries, ∀ b ∈ seriesSorted entries,
      dsLe a b = true → dsLe b a = true → a = b := by
    intro a ha b hb hab hba
    have hkey : sortKey a = sortKey b :=
      keyLE_antisymm ((dsLe_iff a b).mp hab) ((dsLe_iff b a).mp hba)
    have haL : a ∈ L := by
      have := hperm.mem_iff.mp ha
      rcases List.mem_append.mp this with h | h <;> exact h
    have hbL : b ∈ L := by
      have := hperm.mem_iff.mp hb
      rcases List.mem_append.mp this with h | h <;> exact h
    by_contra hne
    exact hkeys.forall hkeysym haL hbL hne hkey
  have hcnt : ∀ x ∈ seriesSorted entries, (seriesSorted entries).count x = 2 := by
    intro x hx
    have hxL : x ∈ L := by
      have := hperm.mem_iff.mp hx
      rcases List.mem_append.mp this with h | h <;> exact h
    rw [hperm.count_eq, List.count_append,
      List.count_eq_one_of_mem hnodupL hxL]
  have hpaired : Paired (seriesSorted entries) := by
    refine paired_of_sorted dsLe (seriesSorted entries) ?_ hdet hcnt
    exact insort_pairwise dsLe dsLe_total dsLe_trans _
  refine ⟨hlen, hpaired, ?_⟩
  intro voi fb out hok
  obtain ⟨hst, _⟩ := read_series_ok voi entries fb out hok
  have := stack_ok_headD _ _ hst
  simpa [List.length_map, hlen] using this

/-- Claim C3 witness: two valid `.dcm` entries with distinct ordering
numbers give a sorted candidate list of length 4 made of adjacent pairs. -/
theorem spec_c3_witness :
    (seriesSorted [⟨"a.dcm", some c3wA⟩, ⟨"b.dcm", some c3wB⟩]).length = 4 ∧
    Paired (seriesSorted [⟨"a.dcm", some c3wA⟩, ⟨"b.dcm", some c3wB⟩]) := by
  have h := spec_c3 [⟨"a.dcm", some c3wA⟩, ⟨"b.dcm", some c3wB⟩]
    (by intro e he; fin_cases he <;> with_unfolding_all decide)
    (by
      intro e he
      fin_cases he
      · exact ⟨c3wA, rfl, by with_unfolding_all decide⟩
      · exact ⟨c3wB, rfl, by with_unfolding_all decide⟩)
    (by
      constructor
      · intro b hb
        simp only [List.mem_singleton] at hb
        subst hb
        with_unfolding_all decide
      · simp)
  exact ⟨h.1, h.2.1⟩

/-! ### Helper lemmas: the assembler and the timing chain -/

theorem make_gif_ok (voi : VOI) (input : GifInput) (fps : Option ℚ)
    (out : EncoderCall) (h : make_gif voi input fps = .ok out) :
    ∃ p : NDArr ℤ × ℚ, gifLoad voi input fps = .ok p ∧
      out = ⟨p.1, finalDt fps p.2, 0⟩ := by
  unfold make_gif at h
  cases hl : gifLoad voi input fps with
  | error e => rw [hl] at h; cases h
  | ok p =>
    rw [hl] at h
    cases p with
    | mk fr dt =>
      cases h
      exact ⟨(fr, dt), rfl, rfl⟩

theorem make_gif_err (voi : VOI) (input : GifInput) (fps : Option ℚ)
    (e : String) (h : gifLoad voi input fps = .error e) :
    make_gif voi input fps = .error e := by
  unfold make_gif
  rw [h]

theorem gifLoad_file_mf (voi : VOI) (ds : Dataset) (dirE : List FileEntry)
    (fps : Option ℚ) (hmf : isMultiframe ds = true) :
    gifLoad voi (.file ds dirE) fps = read_multiframe voi ds := by
  simp [gifLoad, hmf]

theorem gifLoad_file_series (voi : VOI) (ds : Dataset) (dirE : List FileEntry)
    (fps : Option ℚ) (hmf : isMultiframe ds = false) :
    gifLoad voi (.file ds dirE) fps = read_series voi dirE (fallbackFps fps) := by
  simp [gifLoad, hmf]

theorem read_multiframe_ok (voi : VOI) (ds : Dataset) (p : NDArr ℤ × ℚ)
    (h : read_multiframe voi ds = .ok p) : p.2 = mfDt ds := by
  unfold read_multiframe at h
  obtain ⟨a, _, hb⟩ := exceptMap_ok _ _ _ h
  rw [hb]

theorem finalDt_pos (f dt : ℚ) (hf : 0 < f) : finalDt (some f) dt = 1 / f := by
  simp [finalDt, hf]

theorem finalDt_nonpos (fps : Option ℚ) (dt : ℚ)
    (h : ∀ f, fps = some f → f ≤ 0) : finalDt fps dt = dt := by
  cases fps with
  | none => rfl
  | some f =>
    have := h f rfl
    simp [finalDt, not_lt.mpr this]

theorem seriesDtScan_none : ∀ l : List Dataset,
    (∀ ds ∈ l, posQ ds.frameTime = false ∧ posQ ds.cineRate = false) →
    seriesDtScan l = none
  | [], _ => rfl
  | ds :: t, h => by
    obtain ⟨hft, hcr⟩ := h ds (by simp)
    unfold seriesDtScan
    rw [hft, hcr]
    simp only [Bool.false_eq_true, if_false]
    exact seriesDtScan_none t (fun x hx => h x (by simp [hx]))

theorem mem_seriesCandidates (entries : List FileEntry) (ds : Dataset)
    (h : ds ∈ seriesCandidates entries) : ∃ e ∈ entries, e.parse = some ds := by
  unfold seriesCandidates at h
  obtain ⟨e, he, hcand⟩ := List.mem_filterMap.mp h
  have he' : e ∈ entries := by
    rcases List.mem_append.mp he with h' | h' <;> exact (List.mem_filter.mp h').1
  refine ⟨e, he', ?_⟩
  cases hp : e.parse with
  | none => rw [hp] at hcand; cases hcand
  | some ds' =>
    rw [hp] at hcand
    dsimp only at hcand
    by_cases hsop : ds'.sopClassUID = ""
    · rw [if_neg (fun hne => hne hsop)] at hcand
      cases hcand
    · rw [if_pos hsop] at hcand
      exact hcand

/-! ### Claims about the timing chain -/

/-- Claim C1: a present positive explicit fps override always resolves the
duration to `1/override`, whatever the loader and the tags said; and with no
positive override, on the embedded-multiframe path a present positive
`FrameTime` resolves to `FrameTime/1000` regardless of any `CineRate`. -/
theorem spec_c1 :
    (∀ (voi : VOI) (input : GifInput) (f : ℚ) (out : EncoderCall),
      0 < f → make_gif voi input (some f) = .ok out → out.duration = 1 / f) ∧
    (∀ (voi : VOI) (ds : Dataset) (dirE : List FileEntry) (fps : Option ℚ)
      (t : ℚ) (out : EncoderCall),
      (∀ f, fps = some f → f ≤ 0) → isMultiframe ds = true →
      ds.frameTime = some t → 0 < t →
      make_gif voi (.file ds dirE) fps = .ok out → out.duration = t / 1000) := by
  constructor
  · intro voi input f out hf hok
    obtain ⟨p, _, hout⟩ := make_gif_ok voi input (some f) out hok
    rw [hout]
    exact finalDt_pos f p.2 hf
  · intro voi ds dirE fps t out hfps hmf hft hpos hok
    obtain ⟨p, hl, hout⟩ := make_gif_ok voi (.file ds dirE) fps out hok
    rw [gifLoad_file_mf voi ds dirE fps hmf] at hl
    have hdt := read_multiframe_ok voi ds p hl
    have hmfdt : mfDt ds = t / 1000 := by
      unfold mfDt
      rw [hft]
      simp [posQ, hpos]
    rw [hout]
    show finalDt fps p.2 = t / 1000
    rw [finalDt_nonpos fps p.2 hfps, hdt, hmfdt]

/-- Claim C1 witness: override 25 fps beats `FrameTime=40`/`CineRate=15`
(duration 1/25); with no override, `FrameTime=40` beats `CineRate=15`
(duration 0.04). -/
theorem spec_c1_witness :
    (⟨c1Out, 1 / 25, 0⟩ : EncoderCall).duration = 1 / 25 ∧
    (⟨c1Out, 40 / 1000, 0⟩ : EncoderCall).duration = 40 / 1000 :=
  ⟨spec_c1.1 voiOk (.file c1Ds []) 25 ⟨c1Out, 1 / 25, 0⟩ (by norm_num)
      (by with_unfolding_all rfl),
   spec_c1.2 voiOk c1Ds [] none 40 ⟨c1Out, 40 / 1000, 0⟩ (fun f h => nomatch h)
      rfl rfl (by norm_num) (by with_unfolding_all rfl)⟩

/-- Claim C10 counterexample: the override `-5` is given (and not positive),
all timing tags are absent, yet the multiframe path resolves the duration to
`1/25`, not `1/fallbackFps = 1/(-5)` as the claim demands. -/
theorem spec_c10_counterexample :
    make_gif voiOk (.file c10Ds []) (some (-5)) = .ok ⟨⟨[1, 1, 1], [0]⟩, 1 / 25, 0⟩ ∧
    (1 / 25 : ℚ) ≠ 1 / (-5 : ℚ) := by
  refine ⟨by with_unfolding_all rfl, by norm_num⟩

/-- Claim C10 (amended): with no positive override and no positive timing
tag, the duration is `1/fallbackFps`, where `fallbackFps` is 25 on the
embedded-multiframe path (which ignores the caller's value), and on the
directory-series paths is the caller's override when given and nonzero,
else 25 (`fps or 25.0`). -/
theorem spec_c10 :
    (∀ (voi : VOI) (ds : Dataset) (dirE : List FileEntry) (fps : Option ℚ)
      (out : EncoderCall),
      (∀ f, fps = some f → f ≤ 0) → isMultiframe ds = true →
      posQ ds.frameTime = false → posQ ds.cineRate = false →
      make_gif voi (.file ds dirE) fps = .ok out → out.duration = 1 / 25) ∧
    (∀ (voi : VOI) (entries : List FileEntry) (fps : Option ℚ) (out : EncoderCall),
      (∀ f, fps = some f → f ≤ 0) →
      (∀ e ∈ entries, ∀ ds, e.parse = some ds →
        posQ ds.frameTime = false ∧ posQ ds.cineRate = false) →
      make_gif voi (.dir entries) fps = .ok out →
        out.duration = 1 / fallbackFps fps) ∧
    (∀ (voi : VOI) (ds : Dataset) (dirE : List FileEntry) (fps : Option ℚ)
      (out : EncoderCall),
      (∀ f, fps = some f → f ≤ 0) → isMultiframe ds = false →
      (∀ e ∈ dirE, ∀ d, e.parse = some d →
        posQ d.frameTime = false ∧ posQ d.cineRate = false) →
      make_gif voi (.file ds dirE) fps = .ok out →
        out.duration = 1 / fallbackFps fps) := by
  have hseries : ∀ (voi : VOI) (entries : List FileEntry) (fps : Option ℚ)
      (p : NDArr ℤ × ℚ),
      (∀ e ∈ entries, ∀ d, e.parse = some d →
        posQ d.frameTime = false ∧ posQ d.cineRate = false) →
      read_series voi entries (fallbackFps fps) = .ok p →
      p.2 = 1 / fallbackFps fps := by
    intro voi entries fps p htags hok
    obtain ⟨_, hdt⟩ := read_series_ok voi entries (fallbackFps fps) p hok
    have hnone : seriesDtScan (seriesSorted entries) = none := by
      refine seriesDtScan_none _ ?_
      intro ds hds
      have hds' : ds ∈ seriesCandidates entries :=
        (sortCandidates_perm (seriesCandidates entries)).subset hds
      obtain ⟨e, he, hp⟩ := mem_seriesCandidates entries ds hds'
      exact htags e he ds hp
    rw [hdt, hnone]
    rfl
  refine ⟨?_, ?_, ?_⟩
  · intro voi ds dirE fps out hfps hmf hft hcr hok
    obtain ⟨p, hl, hout⟩ := make_gif_ok voi (.file ds dirE) fps out hok
    rw [gifLoad_file_mf voi ds dirE fps hmf] at hl
    have hdt := read_multiframe_ok voi ds p hl
    have hmfdt : mfDt ds = 1 / 25 := by
      unfold mfDt
      rw [hft, hcr]
      simp
    rw [hout]
    show finalDt fps p.2 = 1 / 25
    rw [finalDt_nonpos fps p.2 hfps, hdt, hmfdt]
  · intro voi entries fps out hfps htags hok
    obtain ⟨p, hl, hout⟩ := make_gif_ok voi (.dir entries) fps out hok
    have hl' : read_series voi entries (fallbackFps fps) = .ok p := hl
    have hdt := hseries voi entries fps p htags hl'
    rw [hout]
    show finalDt fps p.2 = 1 / fallbackFps fps
    rw [finalDt_nonpos fps p.2 hfps, hdt]
  · intro voi ds dirE fps out hfps hmf htags hok
    obtain ⟨p, hl, hout⟩ := make_gif_ok voi (.file ds dirE) fps out hok
    rw [gifLoad_file_series voi ds dirE fps hmf] at hl
    have hdt := hseries voi dirE fps p htags hl
    rw [hout]
    show finalDt fps p.2 = 1 / fallbackFps fps
    rw [finalDt_nonpos fps p.2 hfps, hdt]

/-- Claim C10 witness: multiframe with no override → 1/25; a directory
series with override −4 (given, nonzero, not positive) → the −4 passes
through `fps or 25.0` and the duration is `1/(−4)`. -/
theorem spec_c10_witness :
    (⟨⟨[1, 1, 1], [0]⟩, 1 / 25, 0⟩ : EncoderCall).duration = 1 / 25 ∧
    (⟨⟨[2, 1, 2], [0, 255, 0, 255]⟩, -(1 / 4), 0⟩ : EncoderCall).duration =
      1 / fallbackFps (some (-4)) :=
  ⟨spec_c10.1 voiOk c10Ds [] none ⟨⟨[1, 1, 1], [0]⟩, 1 / 25, 0⟩
      (fun f h => nomatch h) rfl rfl rfl (by with_unfolding_all rfl),
   spec_c10.2.1 voiOk [⟨"w.dcm", some c10wDs⟩] (some (-4))
      ⟨⟨[2, 1, 2], [0, 255, 0, 255]⟩, -(1 / 4), 0⟩
      (by intro f h; cases h; norm_num)
      (by
        intro e he d hd
        fin_cases he
        cases hd
        exact ⟨rfl, rfl⟩)
      (by with_unfolding_all rfl)⟩

/-! ### Claims about error handling -/

/-- Claim C5: a directory whose entries all fail to parse or lack an
object-class identity makes assembly fail with the "no source objects
found" error; the error is surfaced and no encoder call is ever produced. -/
theorem spec_c5 (voi : VOI) (entries : List FileEntry) (fps : Option ℚ)
    (h : ∀ e ∈ entries, ∀ ds, e.parse = some ds → ds.sopClassUID = "") :
    make_gif voi (.dir entries) fps = .error "No DICOM files found in folder." ∧
    ∀ c, make_gif voi (.dir entries) fps ≠ .ok c := by
  have hcand : seriesCandidates entries = [] := by
    unfold seriesCandidates
    refine List.filterMap_eq_nil_iff.mpr ?_
    intro e he
    have he' : e ∈ entries := by
      rcases List.mem_append.mp he with h' | h' <;> exact (List.mem_filter.mp h').1
    cases hp : e.parse with
    | none => rfl
    | some ds =>
      have hsop := h e he' ds hp
      simp [hsop]
  have herr : make_gif voi (.dir entries) fps = .error "No DICOM files found in folder." :=
    make_gif_err voi _ fps _ (read_series_empty voi entries (fallbackFps fps) hcand)
  refine ⟨herr, ?_⟩
  intro c hc
  rw [herr] at hc
  cases hc

/-- Claim C5 witness: one unparsable file. -/
theorem spec_c5_witness :
    make_gif voiOk (.dir [⟨"x.dcm", none⟩]) none =
      .error "No DICOM files found in folder." :=
  (spec_c5 voiOk [⟨"x.dcm", none⟩] none
    (by
      intro e he ds hds
      fin_cases he
      cases hds)).1

/-- Claim C6: the code comment says "take first frame" and the spec says the
non-2-D candidate is degraded to a 2-D slice, but `np.squeeze(arr)[..., :1]`
on a (2,2,2) array yields shape (2,2,1) — still 3-dimensional (it slices the
last axis, the columns, not the frame axis) — and stacking it with the 2-D
frames of the other candidates then fails the whole load. -/
theorem spec_c6_bug :
    (seriesDegrade ⟨[2, 2, 2], [1, 2, 3, 4, 5, 6, 7, 8]⟩).shape = [2, 2, 1] ∧
    (seriesDegrade ⟨[2, 2, 2], [1, 2, 3, 4, 5, 6, 7, 8]⟩).ndim = 3 ∧
    read_series voiOk [⟨"a.dcm", some c6GoodDs⟩, ⟨"b.dcm", some c6BadDs⟩] 25 =
      .error "all input arrays must have the same shape" := by
  refine ⟨by with_unfolding_all rfl, by with_unfolding_all rfl, ?_⟩
  with_unfolding_all rfl

/-- Claim C9: a failing VOI-LUT collaborator is caught, the unrescaled frame
is used, and neither loader can distinguish a failing collaborator from one
that succeeds as a no-op — the failure never propagates. -/
theorem spec_c9 :
    (∀ (voi : VOI) (a : NDArr ℚ) (ds : Dataset) (e : String),
      voi a ds = .error e → applyVoi voi a ds = a) ∧
    (∀ (voi : VOI) (ds : Dataset),
      read_multiframe (voiPatch voi) ds = read_multiframe voi ds) ∧
    (∀ (voi : VOI) (entries : List FileEntry) (fb : ℚ),
      read_series (voiPatch voi) entries fb = read_series voi entries fb) := by
  have hpatch : ∀ (voi : VOI) (a : NDArr ℚ) (ds : Dataset),
      applyVoi (voiPatch voi) a ds = applyVoi voi a ds := by
    intro voi a ds
    unfold applyVoi voiPatch
    cases voi a ds <;> rfl
  have hframe : ∀ (voi : VOI) (inv : Bool) (ds : Dataset),
      seriesFrame (voiPatch voi) inv ds = seriesFrame voi inv ds := by
    intro voi inv ds
    unfold seriesFrame
    simp only [hpatch]
  refine ⟨?_, ?_, ?_⟩
  · intro voi a ds e h
    unfold applyVoi
    rw [h]
  · intro voi ds
    unfold read_multiframe
    simp only [hpatch]
  · intro voi entries fb
    unfold read_series
    have hmap : seriesFrame (voiPatch voi) (seriesInvert entries) =
        seriesFrame voi (seriesInvert entries) :=
      funext (fun ds => hframe voi _ ds)
    rw [hmap]

/-- Claim C9 witness: an always-failing collaborator leaves a concrete frame
unchanged and a concrete multiframe load unaffected. -/
theorem spec_c9_witness :
    applyVoi voiFail ⟨[1, 1], [3]⟩ dsDefault = ⟨[1, 1], [3]⟩ ∧
    read_multiframe (voiPatch voiFail) c1Ds = read_multiframe voiFail c1Ds :=
  ⟨spec_c9.1 voiFail ⟨[1, 1], [3]⟩ dsDefault "VOI LUT failed" rfl,
   spec_c9.2.1 voiFail c1Ds⟩

end CineToGif
